import Mathlib

/-!
Shallow embedding of `dropblox_ai.py` (a move-selector AI for a Tetris-like
game on a 33x12 board), together with theorems settling the frozen claims
about its specification.

The Python source is Python 2 code.  Machine integers do not overflow in
Python, so coordinates are modelled as `Int` and sizes as `Nat`.  Fallible
operations (list indexing, the broken copy constructor, the `sorted`
misuse, unreachable/diverging loops) are modelled with `Except PyError`.
In-place mutation of a piece or of the caller's command list is modelled by
returning the final value of the mutated object alongside the result.
-/

set_option maxRecDepth 100000

namespace Dropblox

/-- The runtime failures the translated code can raise.  `InvalidMove`
corresponds to the source's `InvalidMoveError`; `IndexError`, `TypeError`
and `AssertionError` to the Python builtins; `FuelOut` is a modelling
artifact marking loops that would run longer than the supplied fuel
(in particular genuinely diverging loops). -/
inductive PyError where
  | InvalidMove
  | IndexError
  | TypeError
  | AssertionError
  | FuelOut
deriving DecidableEq, Repr

/-- A position `(i, j)` on the board (source class `Point`). -/
structure Point where
  i : Int
  j : Int
deriving DecidableEq, Repr

/-- The move commands handled by the source (`left`, `right`, `up`, `down`,
`rotate` plus the terminal `drop`). -/
inductive Cmd where
  | left
  | right
  | up
  | down
  | rotate
  | drop
deriving DecidableEq, Repr

/-- Source class `Block`: a fixed center and offsets plus a mutable
translation and rotation counter. -/
structure Block where
  center : Point
  offsets : List Point
  translation : Point
  rotation : Int
deriving DecidableEq, Repr

def Block.left (b : Block) : Block :=
  { b with translation := ⟨b.translation.i, b.translation.j - 1⟩ }

def Block.right (b : Block) : Block :=
  { b with translation := ⟨b.translation.i, b.translation.j + 1⟩ }

def Block.up (b : Block) : Block :=
  { b with translation := ⟨b.translation.i - 1, b.translation.j⟩ }

def Block.down (b : Block) : Block :=
  { b with translation := ⟨b.translation.i + 1, b.translation.j⟩ }

def Block.rotate (b : Block) : Block :=
  { b with rotation := b.rotation + 1 }

def Block.unrotate (b : Block) : Block :=
  { b with rotation := b.rotation - 1 }

def Block.reset_position (b : Block) : Block :=
  { b with translation := ⟨0, 0⟩, rotation := 0 }

/-- Source `Block.squares`: the absolute squares occupied by the block.
The source branches on `self.rotation % 2` (Python `%` on a positive
modulus agrees with Lean's `Int.emod`) and multiplies the offsets by the
raw factors `(2 - rotation)` (odd branch) resp. `(1 - rotation)` (even
branch) — not by a factor reduced mod 4.  The Python generator is
side-effect free and fully consumed by every caller, so it is modelled as
the eager list of its yields. -/
def Block.squares (b : Block) : List Point :=
  if b.rotation % 2 ≠ 0 then
    b.offsets.map fun o =>
      ⟨b.center.i + b.translation.i + (2 - b.rotation) * o.j,
       b.center.j + b.translation.j - (2 - b.rotation) * o.i⟩
  else
    b.offsets.map fun o =>
      ⟨b.center.i + b.translation.i + (1 - b.rotation) * o.i,
       b.center.j + b.translation.j + (1 - b.rotation) * o.j⟩

/-- Python list read `l[i]`, including the negative-index convention;
raises `IndexError` out of range. -/
def pyGet {α : Type} (l : List α) (i : Int) : Except PyError α :=
  let k : Int := if i < 0 then i + l.length else i
  match l.get? k.toNat with
  | some a => if 0 ≤ k then .ok a else .error .IndexError
  | none => .error .IndexError

/-- Python list write `l[i] = v`, including the negative-index convention;
raises `IndexError` out of range.  Returns the updated list. -/
def pySet {α : Type} (l : List α) (i : Int) (v : α) : Except PyError (List α) :=
  let k : Int := if i < 0 then i + l.length else i
  if 0 ≤ k ∧ k < l.length then
    .ok (l.set k.toNat v)
  else
    .error .IndexError

/-- Source class `Board`: occupancy bitmap (rows of cells, a cell is
occupied iff nonzero), the active block, and the preview queue. -/
structure Board where
  bitmap : List (List Nat)
  block : Block
  preview : List Block
deriving DecidableEq, Repr

/-- `Board.rows` class attribute. -/
def Board.rows : Int := 33

/-- `Board.cols` class attribute. -/
def Board.cols : Int := 12

/-- The loop body of `Board.check`: scan the squares, returning `False` at
the first square that is out of bounds or lands on a truthy (nonzero)
bitmap cell.  The bounds test short-circuits before the bitmap is read,
exactly as the chained `or` in the source does. -/
def check_squares (bitmap : List (List Nat)) : List Point → Except PyError Bool
  | [] => .ok true
  | p :: rest =>
    if p.i < 0 ∨ Board.rows ≤ p.i ∨ p.j < 0 ∨ Board.cols ≤ p.j then
      .ok false
    else
      match pyGet bitmap p.i with
      | .error e => .error e
      | .ok row =>
        match pyGet row p.j with
        | .error e => .error e
        | .ok cell =>
          if cell ≠ 0 then .ok false else check_squares bitmap rest

/-- Source `Board.check`: true iff every square of the block is in bounds
and unoccupied.  It reads but never writes the board and the block, which
the embedding renders as a pure function of both. -/
def Board.check (b : Board) (blk : Block) : Except PyError Bool :=
  check_squares b.bitmap blk.squares

/-- Source `Block.do_command`: dispatches a command name to the matching
mover.  The source first asserts the command is one of the five movers,
so a literal `drop` raises `AssertionError`. -/
def Block.do_command (b : Block) : Cmd → Except PyError Block
  | .left => .ok b.left
  | .right => .ok b.right
  | .up => .ok b.up
  | .down => .ok b.down
  | .rotate => .ok b.rotate
  | .drop => .error .AssertionError

/-- Source `Board.remove_rows`: drop every row whose cells are all truthy
and re-pad the bitmap at the top with that many all-zero rows.  The read
of `bitmap[0]` raises `IndexError` on an empty bitmap. -/
def Board.remove_rows (bitmap : List (List Nat)) : Except PyError (List (List Nat)) :=
  match bitmap with
  | [] => .error .IndexError
  | r0 :: _ =>
    let rows := bitmap.length
    let cols := r0.length
    let new_bitmap := bitmap.filter fun row => !(row.all fun c => c ≠ 0)
    .ok (List.replicate (rows - new_bitmap.length) (List.replicate cols 0) ++ new_bitmap)

/-- The `while self.check(self.block): self.block.down()` loop of
`Board.place`.  Returns the block in the first position failing `check`
(the loop's exit state).  The loop diverges when the block has no squares
(`check` is then vacuously true forever), which surfaces as `FuelOut`. -/
def drop_loop (board : Board) : Nat → Block → Except PyError Block
  | 0, _ => .error .FuelOut
  | n + 1, blk =>
    match board.check blk with
    | .error e => .error e
    | .ok true => drop_loop board n blk.down
    | .ok false => .ok blk

/-- The `for square in self.block.squares(): new_bitmap[i][j] = 1` loop of
`Board.place`: mark each square in the (deep-copied) bitmap. -/
def mark_squares (bitmap : List (List Nat)) : List Point → Except PyError (List (List Nat))
  | [] => .ok bitmap
  | p :: rest =>
    match pyGet bitmap p.i with
    | .error e => .error e
    | .ok row =>
      match pySet row p.j 1 with
      | .error e => .error e
      | .ok row' =>
        match pySet bitmap p.i row' with
        | .error e => .error e
        | .ok bitmap' => mark_squares bitmap' rest

/-- The part of `Board.place` after the drop loop, with `blk2` the locked
block (one `up` from the drop loop's exit state): mark the squares in a
copy of the bitmap, clear full rows, and build the successor board from
the preview. -/
def place_after_drop (b : Board) (blk2 : Block) : Except PyError (Option Board) :=
  match mark_squares b.bitmap blk2.squares with
  | .error e => .error e
  | .ok marked =>
    match Board.remove_rows marked with
    | .error e => .error e
    | .ok new_bitmap =>
      match b.preview with
      | [] => .ok none
      | h :: t => .ok (some ⟨new_bitmap, h, t⟩)

/-- Source `Board.place`: drop the current block to its resting position,
lock it into a copy of the bitmap, clear full rows, and hand out a new
`Board` drawing the next block from the preview.  With an **empty preview
it prints a warning and returns `None`** (modelled as `.ok none`).  The
method mutates `self.block` (the drop loop's `down`/`up` calls), so the
final state of that block is returned as the second component. -/
def Board.place (b : Board) (fuel : Nat) :
    Except PyError (Option Board) × Block :=
  match drop_loop b fuel b.block with
  | .error e => (.error e, b.block)
  | .ok blk1 => (place_after_drop b blk1.up, blk1.up)

/-- The `for command in commands:` loop of `Board.do_commands`, running
with the current state of `self.block`.  At the first `drop` it performs
the lock transition and returns; after every other command it re-checks
legality and raises `InvalidMoveError` on failure.  The plain-`[]` case
mirrors Python's implicit `return None` when a command list without a
`drop` is exhausted (unreachable from `do_commands`, which appends one).
The second component is the final state of `self.block`. -/
def cmd_loop (board : Board) (fuel : Nat) :
    List Cmd → Block → Except PyError (Option Board) × Block
  | [], blk => (.ok none, blk)
  | c :: rest, blk =>
    if c = .drop then
      Board.place { board with block := blk } fuel
    else
      match blk.do_command c with
      | .error e => (.error e, blk)
      | .ok blk' =>
        match board.check blk' with
        | .error e => (.error e, blk')
        | .ok false => (.error .InvalidMove, blk')
        | .ok true => cmd_loop board fuel rest blk'

instance {ε α : Type} [DecidableEq ε] [DecidableEq α] : DecidableEq (Except ε α) := fun x y =>
  match x, y with
  | .ok a, .ok b => decidable_of_iff (a = b) (by simp)
  | .error a, .error b => decidable_of_iff (a = b) (by simp)
  | .ok _, .error _ => isFalse (by simp)
  | .error _, .ok _ => isFalse (by simp)

/-- The observable outcome of `Board.do_commands`: the returned value (or
the raised error), the final state of the board's active block (mutated in
place by the source), and the final state of the caller's command list
(the source appends `'drop'` to it in place). -/
structure DoOut where
  result : Except PyError (Option Board)
  blockAfter : Block
  cmdsAfter : List Cmd
deriving DecidableEq, Repr

/-- Source `Board.do_commands`: reset the active block, raise
`InvalidMoveError` if the reset position is illegal (note: this happens
**before** the list append), append `'drop'` to the caller's list in
place, then run the command loop. -/
def Board.do_commands (b : Board) (cmds : List Cmd) (fuel : Nat) : DoOut :=
  let blk0 := b.block.reset_position
  match b.check blk0 with
  | .error e => ⟨.error e, blk0, cmds⟩
  | .ok false => ⟨.error .InvalidMove, blk0, cmds⟩
  | .ok true =>
    let cmds1 := cmds ++ [Cmd.drop]
    let (res, blk1) := cmd_loop b fuel cmds1 blk0
    ⟨res, blk1, cmds1⟩

/-- The self-object after a `do_commands` call: same bitmap and preview
(never assigned by the source), with the mutated active block. -/
def DoOut.selfAfter (b : Board) (o : DoOut) : Board :=
  { b with block := o.blockAfter }

/-- First loop of `positions_by_dropping`: slide the caller's block left
while legal, appending `'left'` to `move` each time.  Returns the command
list and the final block state (the first illegal position). -/
def slide_left_loop (board : Board) :
    Nat → Block → List Cmd → Except PyError (List Cmd) × Block
  | 0, blk, _ => (.error .FuelOut, blk)
  | n + 1, blk, move =>
    match board.check blk with
    | .error e => (.error e, blk)
    | .ok true => slide_left_loop board n blk.left (move ++ [Cmd.left])
    | .ok false => (.ok move, blk)

/-- Second loop of `positions_by_dropping`: while the block is legal,
snapshot `move[:]` before each of four `rotate` calls (appending
`'rotate'` to `move` after each snapshot), then move `right` appending
`'right'`.  Note the four rotations **advance the raw rotation counter by
4 each column** — which, by the asymmetric `squares` formula, does not
return the block to its original geometry. -/
def sweep_loop (board : Board) :
    Nat → Block → List Cmd → List (List Cmd) →
    Except PyError (List (List Cmd)) × Block × List Cmd
  | 0, blk, move, _ => (.error .FuelOut, blk, move)
  | n + 1, blk, move, moves =>
    match board.check blk with
    | .error e => (.error e, blk, move)
    | .ok false => (.ok moves, blk, move)
    | .ok true =>
      let moves1 := moves ++
        [move, move ++ [Cmd.rotate], move ++ [Cmd.rotate, Cmd.rotate],
         move ++ [Cmd.rotate, Cmd.rotate, Cmd.rotate]]
      let blk1 := blk.rotate.rotate.rotate.rotate
      let move1 := move ++ [Cmd.rotate, Cmd.rotate, Cmd.rotate, Cmd.rotate, Cmd.right]
      sweep_loop board n blk1.right move1 moves1

/-- The observable outcome of `positions_by_dropping`: the returned list
(or the raised error) and the final state of the **caller's** block,
which the source moves in place. -/
structure PosOut where
  result : Except PyError (List (Board × List Cmd))
  blockAfter : Block
deriving DecidableEq, Repr

/-- Source `positions_by_dropping`.  It slides the caller's block (not a
copy) to the leftmost legal column, then sweeps right across the columns
accumulating candidate command lists in `moves`.  Its local helper
`block_copy` calls `Block(block.center, block.offsets)`, but
`Block.__init__` subscripts its arguments (`center['i']`), which raises
`TypeError` on a `Point` — so the first iteration of the final `for thing
in moves:` loop raises, and every statement after it (including the
`board.block = b` assignment and `board.place()`) is unreachable.  When
`moves` is empty (entry position already illegal) the loop body never
runs and `zip(boards, moves)` of two empty lists is returned. -/
def positions_by_dropping (fuel : Nat) (board : Board) (block : Block) : PosOut :=
  match slide_left_loop board fuel block [] with
  | (.error e, blk) => ⟨.error e, blk⟩
  | (.ok move0, blk0) =>
    let (blk1, move1) :=
      if move0.length > 0 then (blk0.right, move0.dropLast) else (blk0, move0)
    match sweep_loop board fuel blk1 move1 [] with
    | (.error e, blk, _) => ⟨.error e, blk⟩
    | (.ok moves, blk2, move2) =>
      let (blk3, _move3) :=
        if move2.length > 0 then (blk2.left, move2.dropLast) else (blk2, move2)
      match moves with
      | [] => ⟨.ok [], blk3⟩
      | _ :: _ => ⟨.error .TypeError, blk3⟩

/-- Source constant `SPACE_VALUE` (weight of the enclosed-space penalty). -/
def SPACE_VALUE : ℚ := -10

/-- Source constant `FLAT_VALUE` (weight of the unevenness penalty). -/
def FLAT_VALUE : ℚ := -5

/-- One neighbor step of the flood-fill while-loop in `board_score`:
guard the bounds, then test `not visited[new_r][new_c]` and
`bitmap[new_r][new_c] == 0` (short-circuit, in that order); on success
enqueue the cell and mark it visited.

The source builds `visited` as `[[False] * columns] * rows`, which makes
all 33 outer entries **aliases of one shared row of 12 booleans**, so
`visited[x][y]` reads and writes position `y` of that single shared list;
`vis` is that shared list. -/
def bfs_neighbor (bitmap : List (List Nat)) (rowsN colsN : Nat)
    (s : Int × Int) (m : Int × Int) (st : List (Int × Int) × List Bool) :
    Except PyError (List (Int × Int) × List Bool) := do
  let (queue, vis) := st
  let new_r := s.1 + m.1
  let new_c := s.2 + m.2
  if 0 ≤ new_r ∧ new_r < (rowsN : Int) ∧ 0 ≤ new_c ∧ new_c < (colsN : Int) then do
    let v ← pyGet vis new_c
    if v then
      .ok (queue, vis)
    else do
      let row ← pyGet bitmap new_r
      let cell ← pyGet row new_c
      if cell = 0 then do
        let vis' ← pySet vis new_c true
        .ok (queue ++ [(new_r, new_c)], vis')
      else
        .ok (queue, vis)
  else
    .ok (queue, vis)

/-- The `while not len(queue) == 0` flood-fill loop of `board_score`:
pop the queue's head, count it into `size`, and try the four neighbor
moves `[-1,0], [1,0], [0,1], [0,-1]` in order. -/
def bfs_loop (bitmap : List (List Nat)) (rowsN colsN : Nat) :
    Nat → List (Int × Int) → Nat → List Bool →
    Except PyError (Nat × List Bool)
  | 0, _, _, _ => .error .FuelOut
  | n + 1, queue, size, vis =>
    match queue with
    | [] => .ok (size, vis)
    | s :: rest => do
      let st1 ← bfs_neighbor bitmap rowsN colsN s (-1, 0) (rest, vis)
      let st2 ← bfs_neighbor bitmap rowsN colsN s (1, 0) st1
      let st3 ← bfs_neighbor bitmap rowsN colsN s (0, 1) st2
      let st4 ← bfs_neighbor bitmap rowsN colsN s (0, -1) st3
      bfs_loop bitmap rowsN colsN n st4.1 (size + 1) st4.2

/-- The nested `for r in range(rows): for c in range(columns):` scan of
`board_score`, iterating over the row-major list of `(r, c)` pairs.  The
seed test reads `visited[c][r]` and `bitmap[c][r]` — with the indices
**transposed** — so on a 33x12 board the read `visited[c][r]` raises
`IndexError` as soon as `r` reaches 12 (the shared visited row has only
12 entries).  A seeded cell starts a flood fill whose seed is **not**
marked visited. -/
def score_loop (bitmap : List (List Nat)) (rowsN colsN fuel : Nat) :
    List (Nat × Nat) → List Bool → List Nat → Except PyError (List Nat)
  | [], _, spaces => .ok spaces
  | (r, c) :: rest, vis, spaces => do
    let v ← pyGet vis (r : Int)
    if v then
      score_loop bitmap rowsN colsN fuel rest vis spaces
    else do
      let row ← pyGet bitmap (c : Int)
      let cell ← pyGet row (r : Int)
      if cell = 0 then do
        let (size, vis') ←
          bfs_loop bitmap rowsN colsN fuel [((r : Int), (c : Int))] 0 vis
        score_loop bitmap rowsN colsN fuel rest vis' (spaces ++ [size])
      else
        score_loop bitmap rowsN colsN fuel rest vis spaces

/-- Source `board_score`.  After the component scan the source executes
`spaces = sorted(spaces.sort)`: `spaces.sort` is the *bound method
object*, not a call, and `sorted` of a method object raises `TypeError`
unconditionally, so no execution of `board_score` ever proceeds past that
line (the subsequent `math.sqrt` would additionally raise `NameError`:
`math` is never imported).  On a 33-row board even that line is
unreachable: the transposed `visited[c][r]` seed read raises `IndexError`
once `r` reaches 12.

The outer read `visited[c]` and the seed read `bitmap[c]` are in bounds
whenever `c < columns ≤ rows = len(bitmap)`, which holds on every board
this embedding evaluates; the error behaviour of the remaining reads is
modelled exactly. -/
def board_score (b : Board) (fuel : Nat) : Except PyError ℚ := do
  let rowsN := b.bitmap.length
  let row0 ← pyGet b.bitmap 0
  let colsN := row0.length
  let vis0 := List.replicate colsN false
  let pairs := (List.range rowsN).flatMap fun r => (List.range colsN).map fun c => (r, c)
  let _spaces ← score_loop b.bitmap rowsN colsN fuel pairs vis0 []
  .error .TypeError

/-- The `while board.bitmap[r][c] == 0 and r < rows:` loop of the
per-column height computation in `board_score` (source lines 354-359).
The bitmap cell is read **before** the `r < rows` bound is tested, so a
column with no occupied cell drives `r` to `rows` and the final read
raises `IndexError`. -/
def height_loop (bitmap : List (List Nat)) (c : Int) :
    Nat → Nat → Except PyError Nat
  | 0, _ => .error .FuelOut
  | n + 1, r => do
    let row ← pyGet bitmap (r : Int)
    let cell ← pyGet row c
    if cell = 0 ∧ r < bitmap.length then
      height_loop bitmap c n (r + 1)
    else
      .ok r

/-- The height of one column as `board_score` computes it: start at
`r = 0` and run `height_loop`.  The fuel `len(bitmap) + 1` covers every
terminating behaviour of the loop (`r` never exceeds `len(bitmap)`). -/
def column_height (bitmap : List (List Nat)) (c : Int) : Except PyError Nat :=
  height_loop bitmap c (bitmap.length + 1) 0

/-- Source constant `MAX_DEPTH`. -/
def MAX_DEPTH : Nat := 6

/-- The dynamic result of `search`: a score (any depth ≥ 1) or the best
move list (depth 0). -/
inductive SearchRes where
  | score (q : ℚ)
  | moves (l : List Cmd)
deriving DecidableEq, Repr

/-- The `for (new_board, move_list) in possible_moves:` loop of `search`,
threading `(max_score, best_moves)`.  Each iteration reads `preview[0]`
(raising `IndexError` on an empty preview) and recurses at `depth + 1`;
the recursion's result at positive depth is always a score, so the
`.moves` fallback (Python 2 would compare a list with a number) is
unreachable and modelled as an error. -/
def search_fold (f : Board → Block → List Block → Nat → Except PyError SearchRes)
    (preview : List Block) (depth : Nat) :
    List (Board × List Cmd) → ℚ × List Cmd → Except PyError (ℚ × List Cmd)
  | [], acc => .ok acc
  | (nb, ml) :: rest, acc => do
    let h ← pyGet preview 0
    let s ← f nb h (preview.drop 1) (depth + 1)
    match s with
    | .score q =>
      search_fold f preview depth rest (if acc.1 < q then (q, ml) else acc)
    | .moves _ => .error .TypeError

/-- Source `search`: at `depth > MAX_DEPTH` score the board; otherwise
enumerate the placements of the current block, recurse into each with the
next preview block, and track the maximum score — **initialised to 0, not
to a negative-infinity sentinel** — returning `best_moves` at depth 0 and
`max_score` otherwise.  The structural `fuel` only bounds the recursion
depth (7 levels suffice for any run from depth 0). -/
def search : Nat → Board → Block → List Block → Nat → Except PyError SearchRes
  | 0, _, _, _, _ => .error .FuelOut
  | fuel + 1, board, block, preview, depth =>
    if depth > MAX_DEPTH then
      match board_score board 1000 with
      | .error e => .error e
      | .ok q => .ok (.score q)
    else
      match (positions_by_dropping 1000 board block).result with
      | .error e => .error e
      | .ok possible =>
        match search_fold (fun nb h t d => search fuel nb h t d)
            preview depth possible (0, []) with
        | .error e => .error e
        | .ok (maxScore, best) =>
          if depth = 0 then .ok (.moves best) else .ok (.score maxScore)

/-! ### Specification-side definitions (following the spec's wording) -/

/-- A well-formed board per the data-model invariant: the grid is exactly
33 rows of 12 cells. -/
def BoardWF (b : Board) : Prop :=
  b.bitmap.length = 33 ∧ ∀ row ∈ b.bitmap, row.length = 12

instance (b : Board) : Decidable (BoardWF b) := by
  unfold BoardWF; infer_instance

/-- The spec's legality condition for one square: row in `[0,33)`, column
in `[0,12)`, and the grid cell unoccupied. -/
def cellFree (bitmap : List (List Nat)) (p : Point) : Prop :=
  0 ≤ p.i ∧ p.i < 33 ∧ 0 ≤ p.j ∧ p.j < 12 ∧
    (bitmap.getD p.i.toNat []).getD p.j.toNat 1 = 0

/-- The geometric effect of one command on a block (`drop` moves
nothing); total counterpart of `Block.do_command` for stating conditions
about command prefixes. -/
def moveCmd (c : Cmd) (b : Block) : Block :=
  match c with
  | .left => b.left
  | .right => b.right
  | .up => b.up
  | .down => b.down
  | .rotate => b.rotate
  | .drop => b

/-- Apply a command list to a block, left to right. -/
def applyCmds (b : Block) (l : List Cmd) : Block :=
  l.foldl (fun bl c => moveCmd c bl) b

/-- The spec's failure condition for `do_commands`: the reset position is
illegal, or some nonempty prefix of the commands before the first `drop`
puts the piece in an illegal position. -/
def DCFails (b : Board) (cmds : List Cmd) : Prop :=
  b.check b.block.reset_position = .ok false ∨
  ∃ k, k < (cmds.takeWhile (· ≠ Cmd.drop)).length ∧
    b.check (applyCmds b.block.reset_position
      ((cmds.takeWhile (· ≠ Cmd.drop)).take (k + 1))) = .ok false

/-! ### Concrete fixtures -/

/-- A 33x12 bitmap with every cell empty. -/
def emptyBitmap : List (List Nat) := List.replicate 33 (List.replicate 12 0)

/-- A 33x12 bitmap with every cell occupied. -/
def fullBitmap : List (List Nat) := List.replicate 33 (List.replicate 12 1)

/-- A one-square block at center `(16, 6)` with the single offset
`(0, 0)`, in its origin position. -/
def blkOne : Block := ⟨⟨16, 6⟩, [⟨0, 0⟩], ⟨0, 0⟩, 0⟩

/-- An empty board carrying `blkOne` with a one-block preview. -/
def bEmpty : Board := ⟨emptyBitmap, blkOne, [blkOne]⟩

/-- A fully occupied board carrying `blkOne` with a one-block preview. -/
def bFull : Board := ⟨fullBitmap, blkOne, [blkOne]⟩

/-- An empty board carrying `blkOne` with an empty preview queue. -/
def bNoPrev : Board := ⟨emptyBitmap, blkOne, []⟩

/-- A one-square block at the grid origin with the single offset
`(0, 1)`. -/
def blkC7 : Block := ⟨⟨0, 0⟩, [⟨0, 1⟩], ⟨0, 0⟩, 0⟩

/-- The bitmap of `bEmpty` after `blkOne` locks at the bottom of its
column: a single occupied cell at row 32, column 6. -/
def bmC6 : List (List Nat) :=
  List.replicate 32 (List.replicate 12 0) ++ [[0, 0, 0, 0, 0, 0, 1, 0, 0, 0, 0, 0]]

/-- The board `place` returns for `bEmpty`: the marked bitmap, the
preview's head as active block, and the empty remaining preview. -/
def nbC6 : Board := ⟨bmC6, blkOne, []⟩

/-! ### Helper lemmas -/

theorem pyGet_pos {α : Type} (l : List α) (d : α) (i : Int) (h0 : 0 ≤ i)
    (h1 : i < l.length) :
    pyGet l i = .ok (l.getD i.toNat d) := by
  have hk : (if i < 0 then i + (l.length : Int) else i) = i :=
    if_neg (by omega)
  have hlt : i.toNat < l.length := by omega
  simp only [pyGet, hk, List.get?_eq_get hlt, if_pos h0]
  rw [List.getD_eq_getElem _ _ hlt]
  simp [List.get_eq_getElem]

theorem pyGetAux_ok {α : Type} {l : List α} (k : Int) {a : α}
    (h : (match l.get? k.toNat with
          | some b => if 0 ≤ k then (Except.ok b : Except PyError α)
                      else .error .IndexError
          | none => .error .IndexError) = .ok a) :
    0 ≤ k ∧ l.get? k.toNat = some a := by
  rcases hg : l.get? k.toNat with _ | b
  · rw [hg] at h
    exact absurd h (by simp)
  · rw [hg] at h
    have h' : (if 0 ≤ k then (Except.ok b : Except PyError α)
        else .error .IndexError) = .ok a := h
    by_cases h0 : 0 ≤ k
    · rw [if_pos h0] at h'
      cases h'
      exact ⟨h0, rfl⟩
    · rw [if_neg h0] at h'
      exact absurd h' (by simp)

theorem pyGetAux_error {α : Type} {l : List α} (k : Int) {e : PyError}
    (h : (match l.get? k.toNat with
          | some b => if 0 ≤ k then (Except.ok b : Except PyError α)
                      else .error .IndexError
          | none => .error .IndexError) = .error e) :
    e = .IndexError := by
  rcases hg : l.get? k.toNat with _ | b
  · rw [hg] at h
    have h' : (Except.error (α := α) PyError.IndexError) = .error e := h
    cases h'
    rfl
  · rw [hg] at h
    have h' : (if 0 ≤ k then (Except.ok b : Except PyError α)
        else .error .IndexError) = .error e := h
    by_cases h0 : 0 ≤ k
    · rw [if_pos h0] at h'
      exact absurd h' (by simp)
    · rw [if_neg h0] at h'
      cases h'
      rfl

theorem pyGet_mem {α : Type} {l : List α} {i : Int} {a : α}
    (h : pyGet l i = .ok a) : a ∈ l := by
  simp only [pyGet] at h
  exact List.get?_mem (pyGetAux_ok _ h).2

theorem pyGet_error {α : Type} {l : List α} {i : Int} {e : PyError}
    (h : pyGet l i = .error e) : e = .IndexError := by
  simp only [pyGet] at h
  exact pyGetAux_error _ h

theorem pySet_pos {α : Type} (l : List α) (i : Int) (v : α) (h0 : 0 ≤ i)
    (h1 : i < l.length) :
    pySet l i v = .ok (l.set i.toNat v) := by
  have hk : (if i < 0 then i + (l.length : Int) else i) = i :=
    if_neg (by omega)
  simp only [pySet, hk, if_pos (by omega : 0 ≤ i ∧ i < (l.length : Int))]

theorem pySetAux_ok {α : Type} {l l' : List α} (k : Int) {v : α}
    (h : (if 0 ≤ k ∧ k < (l.length : Int) then (Except.ok (l.set k.toNat v) : Except PyError (List α))
          else .error .IndexError) = .ok l') :
    l' = l.set k.toNat v := by
  by_cases hc : 0 ≤ k ∧ k < (l.length : Int)
  · rw [if_pos hc] at h
    cases h
    rfl
  · rw [if_neg hc] at h
    exact absurd h (by simp)

theorem pySet_ok {α : Type} {l l' : List α} {i : Int} {v : α}
    (h : pySet l i v = .ok l') : ∃ k, l' = l.set k v := by
  simp only [pySet] at h
  exact ⟨_, pySetAux_ok _ h⟩

theorem pySet_error {α : Type} {l : List α} {i : Int} {v : α} {e : PyError}
    (h : pySet l i v = .error e) : e = .IndexError := by
  simp only [pySet] at h
  by_cases hc : 0 ≤ (if i < 0 then i + (l.length : Int) else i) ∧
      (if i < 0 then i + (l.length : Int) else i) < (l.length : Int)
  · rw [if_pos hc] at h
    exact absurd h (by simp)
  · rw [if_neg hc] at h
    cases h
    rfl

theorem check_squares_iff (bitmap : List (List Nat))
    (hlen : bitmap.length = 33) (hrow : ∀ row ∈ bitmap, row.length = 12) :
    ∀ ps : List Point,
      (check_squares bitmap ps = .ok true ↔ ∀ p ∈ ps, cellFree bitmap p)
  | [] => by simp [check_squares]
  | p :: rest => by
    unfold check_squares
    by_cases hb : p.i < 0 ∨ Board.rows ≤ p.i ∨ p.j < 0 ∨ Board.cols ≤ p.j
    · rw [if_pos hb]
      unfold Board.rows Board.cols at hb
      constructor
      · intro h
        exact absurd h (by simp)
      · intro h
        have hp := h p (List.mem_cons_self p rest)
        unfold cellFree at hp
        omega
    · rw [if_neg hb]
      unfold Board.rows Board.cols at hb
      push_neg at hb
      obtain ⟨h1, h2, h3, h4⟩ := hb
      have hi : p.i < (bitmap.length : Int) := by omega
      have hrowget := pyGet_pos bitmap [] p.i h1 hi
      set row := bitmap.getD p.i.toNat [] with hrowdef
      have hrowmem : row ∈ bitmap := by
        rw [hrowdef, List.getD_eq_getElem bitmap [] (by omega)]
        exact List.getElem_mem _
      have hrl : row.length = 12 := hrow row hrowmem
      have hj : p.j < (row.length : Int) := by omega
      have hcellget := pyGet_pos row 1 p.j h3 hj
      set cell := row.getD p.j.toNat 1 with hcelldef
      rw [hrowget]
      simp only []
      rw [hcellget]
      simp only []
      by_cases hc : cell = 0
      · rw [if_neg (by omega : ¬ cell ≠ 0)]
        rw [check_squares_iff bitmap hlen hrow rest]
        constructor
        · intro h q hq
          rcases List.mem_cons.mp hq with hq | hq
          · subst hq
            exact ⟨h1, by omega, h3, by omega, by rw [← hrowdef, ← hcelldef]; omega⟩
          · exact h q hq
        · intro h q hq
          exact h q (List.mem_cons_of_mem p hq)
      · rw [if_pos hc]
        constructor
        · intro h
          exact absurd h (by simp)
        · intro h
          have hp := h p (List.mem_cons_self p rest)
          unfold cellFree at hp
          rw [← hrowdef, ← hcelldef] at hp
          omega

theorem place_ok_some_inversion (b : Board) (fuel : Nat) (nb : Board)
    (h : (b.place fuel).1 = .ok (some nb)) :
    ∃ blk1 marked, drop_loop b fuel b.block = .ok blk1 ∧
      mark_squares b.bitmap blk1.up.squares = .ok marked ∧
      Board.remove_rows marked = .ok nb.bitmap ∧
      b.preview = nb.block :: nb.preview := by
  unfold Board.place at h
  rcases hd : drop_loop b fuel b.block with e | blk1
  · rw [hd] at h
    exact absurd (show (Except.error (α := Option Board) e) = .ok (some nb) from h)
      (by simp)
  · rw [hd] at h
    have h1 : place_after_drop b blk1.up = .ok (some nb) := h
    unfold place_after_drop at h1
    rcases hm : mark_squares b.bitmap blk1.up.squares with e | marked
    · rw [hm] at h1
      exact absurd (show (Except.error (α := Option Board) e) = .ok (some nb) from h1)
        (by simp)
    · rw [hm] at h1
      have h2 : (match Board.remove_rows marked with
          | .error e => (Except.error e : Except PyError (Option Board))
          | .ok new_bitmap =>
            match b.preview with
            | [] => .ok none
            | hd' :: t => .ok (some ⟨new_bitmap, hd', t⟩)) = .ok (some nb) := h1
      rcases hr : Board.remove_rows marked with e | newbm
      · rw [hr] at h2
        exact absurd (show (Except.error (α := Option Board) e) = .ok (some nb) from h2)
          (by simp)
      · rw [hr] at h2
        rcases hp : b.preview with _ | ⟨hd', t⟩
        · rw [hp] at h2
          exact absurd
            (show (Except.ok none : Except PyError (Option Board)) = .ok (some nb) from h2)
            (by simp)
        · rw [hp] at h2
          have h3 : (Except.ok (some (⟨newbm, hd', t⟩ : Board)) : Except PyError (Option Board))
              = .ok (some nb) := h2
          simp only [Except.ok.injEq, Option.some.injEq] at h3
          subst h3
          exact ⟨blk1, marked, rfl, hm, by rw [hr], rfl⟩

theorem place_ok_none_inversion (b : Board) (fuel : Nat)
    (h : (b.place fuel).1 = .ok none) : b.preview = [] := by
  unfold Board.place at h
  rcases hd : drop_loop b fuel b.block with e | blk1
  · rw [hd] at h
    exact absurd (show (Except.error (α := Option Board) e) = .ok none from h)
      (by simp)
  · rw [hd] at h
    have h1 : place_after_drop b blk1.up = .ok none := h
    unfold place_after_drop at h1
    rcases hm : mark_squares b.bitmap blk1.up.squares with e | marked
    · rw [hm] at h1
      exact absurd (show (Except.error (α := Option Board) e) = .ok none from h1)
        (by simp)
    · rw [hm] at h1
      have h2 : (match Board.remove_rows marked with
          | .error e => (Except.error e : Except PyError (Option Board))
          | .ok new_bitmap =>
            match b.preview with
            | [] => .ok none
            | hd' :: t => .ok (some ⟨new_bitmap, hd', t⟩)) = .ok none := h1
      rcases hr : Board.remove_rows marked with e | newbm
      · rw [hr] at h2
        exact absurd (show (Except.error (α := Option Board) e) = .ok none from h2)
          (by simp)
      · rw [hr] at h2
        rcases hp : b.preview with _ | ⟨hd', t⟩
        · rfl
        · rw [hp] at h2
          exact absurd
            (show (Except.ok (some (⟨newbm, hd', t⟩ : Board)) : Except PyError (Option Board))
              = .ok none from h2)
            (by simp)

theorem mark_squares_dims (w : Nat) :
    ∀ (ps : List Point) (bitmap m : List (List Nat)),
      (∀ row ∈ bitmap, row.length = w) → mark_squares bitmap ps = .ok m →
      m.length = bitmap.length ∧ ∀ row ∈ m, row.length = w
  | [], bitmap, m, hw, h => by
    have h' : (Except.ok bitmap : Except PyError (List (List Nat))) = .ok m := h
    cases h'
    exact ⟨rfl, hw⟩
  | p :: rest, bitmap, m, hw, h => by
    unfold mark_squares at h
    rcases hg : pyGet bitmap p.i with e | row
    · rw [hg] at h
      exact absurd
        (show (Except.error e : Except PyError (List (List Nat))) = .ok m from h)
        (by simp)
    · rw [hg] at h
      have h1 : (match pySet row p.j 1 with
          | .error e => (Except.error e : Except PyError (List (List Nat)))
          | .ok row' =>
            match pySet bitmap p.i row' with
            | .error e => .error e
            | .ok bitmap' => mark_squares bitmap' rest) = .ok m := h
      rcases hs : pySet row p.j 1 with e | row'
      · rw [hs] at h1
        exact absurd
          (show (Except.error e : Except PyError (List (List Nat))) = .ok m from h1)
          (by simp)
      · rw [hs] at h1
        have h2 : (match pySet bitmap p.i row' with
            | .error e => (Except.error e : Except PyError (List (List Nat)))
            | .ok bitmap' => mark_squares bitmap' rest) = .ok m := h1
        rcases hb : pySet bitmap p.i row' with e | bitmap'
        · rw [hb] at h2
          exact absurd
            (show (Except.error e : Except PyError (List (List Nat))) = .ok m from h2)
            (by simp)
        · rw [hb] at h2
          have h3 : mark_squares bitmap' rest = .ok m := h2
          obtain ⟨k1, hrow'⟩ := pySet_ok hs
          obtain ⟨k2, hbm'⟩ := pySet_ok hb
          have hw' : ∀ r ∈ bitmap', r.length = w := by
            intro r hr
            rw [hbm'] at hr
            rcases List.mem_or_eq_of_mem_set hr with hr | hr
            · exact hw r hr
            · subst hr
              rw [hrow']
              rw [List.length_set]
              exact hw row (pyGet_mem hg)
          have hlen' : bitmap'.length = bitmap.length := by
            rw [hbm', List.length_set]
          obtain ⟨hml, hmw⟩ := mark_squares_dims w rest bitmap' m hw' h3
          exact ⟨by rw [hml, hlen'], hmw⟩

theorem remove_rows_spec (bitmap : List (List Nat)) (hlen : bitmap.length = 33)
    (hrow : ∀ row ∈ bitmap, row.length = 12) (out : List (List Nat))
    (h : Board.remove_rows bitmap = .ok out) :
    out.length = 33 ∧ (∀ row ∈ out, row.length = 12) ∧
    (∀ row ∈ out, ∃ c ∈ row, c = 0) ∧
    ∃ k kept, out = List.replicate k (List.replicate 12 0) ++ kept ∧
      k + kept.length = 33 ∧ ∀ row ∈ kept, (row.all fun c => c ≠ 0) = false := by
  rcases hbm : bitmap with _ | ⟨r0, rest⟩
  · rw [hbm] at hlen
    simp at hlen
  · subst hbm
    have hc : r0.length = 12 := hrow r0 (List.mem_cons_self r0 rest)
    unfold Board.remove_rows at h
    have h' : (Except.ok (List.replicate ((r0 :: rest).length -
        ((r0 :: rest).filter fun row => !(row.all fun c => c ≠ 0)).length)
        (List.replicate r0.length 0) ++
        ((r0 :: rest).filter fun row => !(row.all fun c => c ≠ 0)))
        : Except PyError (List (List Nat))) = .ok out := h
    have hkept := List.length_filter_le (fun row => !(row.all fun c => c ≠ 0)) (r0 :: rest)
    cases h'
    rw [hc]
    set kept := (r0 :: rest).filter fun row => !(row.all fun c => c ≠ 0) with hkeptdef
    refine ⟨?_, ?_, ?_, (r0 :: rest).length - kept.length, kept, rfl, by omega, ?_⟩
    · rw [List.length_append, List.length_replicate]
      omega
    · intro row hr
      rcases List.mem_append.mp hr with hr | hr
      · rw [List.eq_of_mem_replicate hr]
        simp
      · exact hrow row (List.mem_of_mem_filter hr)
    · intro row hr
      rcases List.mem_append.mp hr with hr | hr
      · rw [List.eq_of_mem_replicate hr]
        exact ⟨0, List.mem_replicate.mpr ⟨by omega, rfl⟩, rfl⟩
      · have hcond := List.of_mem_filter hr
        have hfalse : (row.all fun c => c ≠ 0) = false := by
          revert hcond
          cases row.all fun c => c ≠ 0 <;> simp
        obtain ⟨c, hcmem, hc0⟩ := List.all_eq_false.mp hfalse
        exact ⟨c, hcmem, by simpa using hc0⟩
    · intro row hr
      have hcond := List.of_mem_filter hr
      revert hcond
      cases row.all fun c => c ≠ 0 <;> simp

theorem remove_rows_eq (bitmap : List (List Nat)) (hlen : bitmap.length = 33)
    (hrow : ∀ row ∈ bitmap, row.length = 12) (out : List (List Nat))
    (h : Board.remove_rows bitmap = .ok out) :
    out = List.replicate
        (33 - (bitmap.filter fun row => !(row.all fun c => c ≠ 0)).length)
        (List.replicate 12 0) ++
      bitmap.filter fun row => !(row.all fun c => c ≠ 0) := by
  rcases hbm : bitmap with _ | ⟨r0, rest⟩
  · rw [hbm] at hlen
    simp at hlen
  · subst hbm
    have hc : r0.length = 12 := hrow r0 (List.mem_cons_self r0 rest)
    unfold Board.remove_rows at h
    have h' : (Except.ok (List.replicate ((r0 :: rest).length -
        ((r0 :: rest).filter fun row => !(row.all fun c => c ≠ 0)).length)
        (List.replicate r0.length 0) ++
        ((r0 :: rest).filter fun row => !(row.all fun c => c ≠ 0)))
        : Except PyError (List (List Nat))) = .ok out := h
    cases h'
    rw [hc, hlen]

theorem check_squares_error (bitmap : List (List Nat)) :
    ∀ (ps : List Point) (e : PyError),
      check_squares bitmap ps = .error e → e = .IndexError
  | [], e, h => absurd h (by simp [check_squares])
  | p :: rest, e, h => by
    unfold check_squares at h
    by_cases hb : p.i < 0 ∨ Board.rows ≤ p.i ∨ p.j < 0 ∨ Board.cols ≤ p.j
    · rw [if_pos hb] at h
      exact absurd h (by simp)
    · rw [if_neg hb] at h
      rcases hg : pyGet bitmap p.i with e1 | row
      · rw [hg] at h
        have h' : (Except.error e1 : Except PyError Bool) = .error e := h
        cases h'
        exact pyGet_error hg
      · rw [hg] at h
        have h1 : (match pyGet row p.j with
            | .error e => (Except.error e : Except PyError Bool)
            | .ok cell =>
              if cell ≠ 0 then .ok false else check_squares bitmap rest) = .error e := h
        rcases hc : pyGet row p.j with e2 | cell
        · rw [hc] at h1
          have h' : (Except.error e2 : Except PyError Bool) = .error e := h1
          cases h'
          exact pyGet_error hc
        · rw [hc] at h1
          have h2 : (if cell ≠ 0 then (Except.ok false : Except PyError Bool)
              else check_squares bitmap rest) = .error e := h1
          by_cases hz : cell ≠ 0
          · rw [if_pos hz] at h2
            exact absurd h2 (by simp)
          · rw [if_neg hz] at h2
            exact check_squares_error bitmap rest e h2

theorem check_error (b : Board) (blk : Block) (e : PyError)
    (h : b.check blk = .error e) : e = .IndexError :=
  check_squares_error b.bitmap blk.squares e h

theorem check_squares_total (bitmap : List (List Nat))
    (hlen : bitmap.length = 33) (hrow : ∀ row ∈ bitmap, row.length = 12) :
    ∀ ps : List Point, ∃ bo : Bool, check_squares bitmap ps = .ok bo
  | [] => ⟨true, rfl⟩
  | p :: rest => by
    unfold check_squares
    by_cases hb : p.i < 0 ∨ Board.rows ≤ p.i ∨ p.j < 0 ∨ Board.cols ≤ p.j
    · exact ⟨false, by rw [if_pos hb]⟩
    · rw [if_neg hb]
      unfold Board.rows Board.cols at hb
      push_neg at hb
      obtain ⟨h1, h2, h3, h4⟩ := hb
      have hi : p.i < (bitmap.length : Int) := by omega
      have hrowget := pyGet_pos bitmap [] p.i h1 hi
      set row := bitmap.getD p.i.toNat [] with hrowdef
      have hrowmem : row ∈ bitmap := by
        rw [hrowdef, List.getD_eq_getElem bitmap [] (by omega)]
        exact List.getElem_mem _
      have hrl : row.length = 12 := hrow row hrowmem
      have hj : p.j < (row.length : Int) := by omega
      have hcellget := pyGet_pos row 1 p.j h3 hj
      rw [hrowget]
      simp only []
      rw [hcellget]
      simp only []
      by_cases hc : row.getD p.j.toNat 1 ≠ 0
      · exact ⟨false, by rw [if_pos hc]⟩
      · rw [if_neg hc]
        exact check_squares_total bitmap hlen hrow rest

theorem check_total (b : Board) (hW : BoardWF b) (blk : Block) :
    ∃ bo : Bool, b.check blk = .ok bo :=
  check_squares_total b.bitmap hW.1 hW.2 blk.squares

theorem do_command_ne_drop (blk : Block) (c : Cmd) (h : c ≠ Cmd.drop) :
    blk.do_command c = .ok (moveCmd c blk) := by
  cases c
  · rfl
  · rfl
  · rfl
  · rfl
  · rfl
  · exact absurd rfl h

theorem applyCmds_nil (blk : Block) : applyCmds blk [] = blk := rfl

theorem applyCmds_cons (blk : Block) (c : Cmd) (l : List Cmd) :
    applyCmds blk (c :: l) = applyCmds (moveCmd c blk) l := rfl

theorem dropWhile_head_false {α : Type} (p : α → Bool) :
    ∀ (l : List α) (d : α) (tail : List α),
      l.dropWhile p = d :: tail → p d = false
  | [], d, tail, h => by simp [List.dropWhile] at h
  | a :: l, d, tail, h => by
    rw [List.dropWhile] at h
    rcases hp : p a with _ | _
    · rw [hp] at h
      cases h
      exact hp
    · rw [hp] at h
      exact dropWhile_head_false p l d tail h

theorem drop_loop_error (board : Board) :
    ∀ (fuel : Nat) (blk : Block) (e : PyError),
      drop_loop board fuel blk = .error e → e = .IndexError ∨ e = .FuelOut
  | 0, blk, e, h => by
    have h' : (Except.error PyError.FuelOut : Except PyError Block) = .error e := h
    cases h'
    exact Or.inr rfl
  | n + 1, blk, e, h => by
    unfold drop_loop at h
    rcases hc : board.check blk with e1 | bo
    · rw [hc] at h
      have h' : (Except.error e1 : Except PyError Block) = .error e := h
      cases h'
      exact Or.inl (check_error board blk _ hc)
    · rw [hc] at h
      rcases bo
      · exact absurd (show (Except.ok blk : Except PyError Block) = .error e from h)
          (by simp)
      · exact drop_loop_error board n blk.down e h

theorem mark_squares_error :
    ∀ (ps : List Point) (bitmap : List (List Nat)) (e : PyError),
      mark_squares bitmap ps = .error e → e = .IndexError
  | [], bitmap, e, h => absurd h (by simp [mark_squares])
  | p :: rest, bitmap, e, h => by
    unfold mark_squares at h
    rcases hg : pyGet bitmap p.i with e1 | row
    · rw [hg] at h
      have h' : (Except.error e1 : Except PyError (List (List Nat))) = .error e := h
      cases h'
      exact pyGet_error hg
    · rw [hg] at h
      have h1 : (match pySet row p.j 1 with
          | .error e => (Except.error e : Except PyError (List (List Nat)))
          | .ok row' =>
            match pySet bitmap p.i row' with
            | .error e => .error e
            | .ok bitmap' => mark_squares bitmap' rest) = .error e := h
      rcases hs : pySet row p.j 1 with e2 | row'
      · rw [hs] at h1
        have h' : (Except.error e2 : Except PyError (List (List Nat))) = .error e := h1
        cases h'
        exact pySet_error hs
      · rw [hs] at h1
        have h2 : (match pySet bitmap p.i row' with
            | .error e => (Except.error e : Except PyError (List (List Nat)))
            | .ok bitmap' => mark_squares bitmap' rest) = .error e := h1
        rcases hb : pySet bitmap p.i row' with e3 | bitmap'
        · rw [hb] at h2
          have h' : (Except.error e3 : Except PyError (List (List Nat))) = .error e := h2
          cases h'
          exact pySet_error hb
        · rw [hb] at h2
          exact mark_squares_error rest bitmap' e h2

theorem remove_rows_error (bitmap : List (List Nat)) (e : PyError)
    (h : Board.remove_rows bitmap = .error e) : e = .IndexError := by
  rcases bitmap with _ | ⟨r0, rest⟩
  · have h' : (Except.error PyError.IndexError
        : Except PyError (List (List Nat))) = .error e := h
    cases h'
    rfl
  · exact absurd (show (Except.ok _ : Except PyError (List (List Nat))) = .error e from h)
      (by simp)

theorem place_error (b : Board) (fuel : Nat) (e : PyError)
    (h : (b.place fuel).1 = .error e) : e = .IndexError ∨ e = .FuelOut := by
  unfold Board.place at h
  rcases hd : drop_loop b fuel b.block with e1 | blk1
  · rw [hd] at h
    have h' : (Except.error e1 : Except PyError (Option Board)) = .error e := h
    cases h'
    exact drop_loop_error b fuel b.block e hd
  · rw [hd] at h
    have h1 : place_after_drop b blk1.up = .error e := h
    unfold place_after_drop at h1
    rcases hm : mark_squares b.bitmap blk1.up.squares with e2 | marked
    · rw [hm] at h1
      have h' : (Except.error e2 : Except PyError (Option Board)) = .error e := h1
      cases h'
      exact Or.inl (mark_squares_error _ _ _ hm)
    · rw [hm] at h1
      have h2 : (match Board.remove_rows marked with
          | .error e => (Except.error e : Except PyError (Option Board))
          | .ok new_bitmap =>
            match b.preview with
            | [] => .ok none
            | hd' :: t => .ok (some ⟨new_bitmap, hd', t⟩)) = .error e := h1
      rcases hr : Board.remove_rows marked with e3 | newbm
      · rw [hr] at h2
        have h' : (Except.error e3 : Except PyError (Option Board)) = .error e := h2
        cases h'
        exact Or.inl (remove_rows_error _ _ hr)
      · rw [hr] at h2
        rcases hp : b.preview with _ | ⟨hd', t⟩
        · rw [hp] at h2
          exact absurd
            (show (Except.ok none : Except PyError (Option Board)) = .error e from h2)
            (by simp)
        · rw [hp] at h2
          exact absurd
            (show (Except.ok (some (⟨newbm, hd', t⟩ : Board))
                : Except PyError (Option Board)) = .error e from h2)
            (by simp)

theorem place_ne_invalid (b : Board) (fuel : Nat) :
    (b.place fuel).1 ≠ .error .InvalidMove := by
  intro h
  rcases place_error b fuel _ h with h' | h' <;> cases h'

theorem cmd_loop_stops_at_drop (board : Board) (fuel : Nat) :
    ∀ (pre : List Cmd), Cmd.drop ∉ pre → ∀ (rest : List Cmd) (blk : Block),
      cmd_loop board fuel (pre ++ Cmd.drop :: rest) blk =
        cmd_loop board fuel (pre ++ [Cmd.drop]) blk
  | [], _, rest, blk => by
    simp [cmd_loop]
  | c :: pre', hnd, rest, blk => by
    have hc : c ≠ Cmd.drop := fun h => hnd (h ▸ List.mem_cons_self c pre')
    have hnd' : Cmd.drop ∉ pre' := fun h => hnd (List.mem_cons_of_mem c h)
    simp only [List.cons_append]
    unfold cmd_loop
    rw [if_neg hc, if_neg hc]
    simp only [do_command_ne_drop blk c hc]
    rcases hchk : board.check (moveCmd c blk) with e | bo
    · simp [hchk]
    · rcases bo
      · simp [hchk]
      · simp only [hchk]
        exact cmd_loop_stops_at_drop board fuel pre' hnd' rest (moveCmd c blk)

theorem cmd_loop_takeWhile (board : Board) (fuel : Nat) (cmds : List Cmd)
    (blk : Block) :
    cmd_loop board fuel (cmds ++ [Cmd.drop]) blk =
      cmd_loop board fuel (cmds.takeWhile (· ≠ Cmd.drop) ++ [Cmd.drop]) blk := by
  have hnd : Cmd.drop ∉ cmds.takeWhile (· ≠ Cmd.drop) := by
    intro hmem
    have := List.mem_takeWhile_imp hmem
    simp at this
  rcases hdw : cmds.dropWhile (· ≠ Cmd.drop) with _ | ⟨d, tail⟩
  · have hcmds : cmds = cmds.takeWhile (· ≠ Cmd.drop) := by
      conv_lhs => rw [← List.takeWhile_append_dropWhile (· ≠ Cmd.drop) cmds]
      rw [hdw, List.append_nil]
    rw [← hcmds]
  · have hd : d = Cmd.drop := by
      have := dropWhile_head_false (· ≠ Cmd.drop) cmds d tail hdw
      simpa using this
    subst hd
    have hcmds : cmds = cmds.takeWhile (· ≠ Cmd.drop) ++ Cmd.drop :: tail := by
      conv_lhs => rw [← List.takeWhile_append_dropWhile (· ≠ Cmd.drop) cmds]
      rw [hdw]
    conv_lhs => rw [hcmds, List.append_assoc, List.cons_append]
    exact cmd_loop_stops_at_drop board fuel _ hnd _ blk

theorem do_commands_result_takeWhile (b : Board) (cmds : List Cmd) (fuel : Nat) :
    (b.do_commands cmds fuel).result =
      (b.do_commands (cmds.takeWhile (· ≠ Cmd.drop)) fuel).result := by
  simp only [Board.do_commands]
  rcases hchk : b.check b.block.reset_position with e | bo
  · rfl
  · rcases bo
    · rfl
    · rw [cmd_loop_takeWhile b fuel cmds b.block.reset_position]

theorem cmd_loop_invalid_iff (board : Board) (hlen : board.bitmap.length = 33)
    (hrow : ∀ row ∈ board.bitmap, row.length = 12) (fuel : Nat) :
    ∀ (pre : List Cmd), Cmd.drop ∉ pre → ∀ (blk : Block),
      ((cmd_loop board fuel (pre ++ [Cmd.drop]) blk).1 = .error .InvalidMove ↔
        ∃ k, k < pre.length ∧
          board.check (applyCmds blk (pre.take (k + 1))) = .ok false)
  | [], _, blk => by
    simp only [List.nil_append]
    constructor
    · intro h
      have h' : ({ board with block := blk }.place fuel).1 = .error .InvalidMove := h
      exact absurd h' (place_ne_invalid _ _)
    · rintro ⟨k, hk, _⟩
      simp at hk
  | c :: pre', hnd, blk => by
    have hc : c ≠ Cmd.drop := fun h => hnd (h ▸ List.mem_cons_self c pre')
    have hnd' : Cmd.drop ∉ pre' := fun h => hnd (List.mem_cons_of_mem c h)
    simp only [List.cons_append]
    unfold cmd_loop
    rw [if_neg hc]
    simp only [do_command_ne_drop blk c hc]
    obtain ⟨bo, hchk⟩ :=
      check_squares_total board.bitmap hlen hrow (moveCmd c blk).squares
    have hchk' : board.check (moveCmd c blk) = .ok bo := hchk
    rcases bo
    · simp only [hchk']
      constructor
      · intro _
        refine ⟨0, by simp, ?_⟩
        rw [List.take_succ_cons, List.take_zero, applyCmds_cons, applyCmds_nil]
        exact hchk'
      · intro _
        trivial
    · simp only [hchk']
      rw [cmd_loop_invalid_iff board hlen hrow fuel pre' hnd' (moveCmd c blk)]
      constructor
      · rintro ⟨k, hk, hfail⟩
        refine ⟨k + 1, by simp; omega, ?_⟩
        rw [List.take_succ_cons, applyCmds_cons]
        exact hfail
      · rintro ⟨k, hk, hfail⟩
        cases k with
        | zero =>
          rw [List.take_succ_cons, List.take_zero, applyCmds_cons,
            applyCmds_nil, hchk'] at hfail
          simp at hfail
        | succ k' =>
          rw [List.take_succ_cons, applyCmds_cons] at hfail
          refine ⟨k', by simp at hk; omega, hfail⟩

theorem map_eq_map_iff_mem {α β : Type} (f g : α → β) :
    ∀ l : List α, (l.map f = l.map g ↔ ∀ a ∈ l, f a = g a)
  | [] => by simp
  | a :: l => by
    simp [map_eq_map_iff_mem f g l]

theorem sub_four_mul_eq_iff (A o : Int) : A * o = (A - 4) * o ↔ o = 0 := by
  constructor
  · intro h
    have h2 : (A - 4) * o = A * o - 4 * o := by ring
    rw [h2] at h
    linarith
  · rintro rfl
    ring

/-! ### Claim theorems -/

/-- C1: on a fully occupied board the enumerator yields zero placements,
and `search` at depth 1 then returns the score 0 — the running maximum's
initial value — rather than a negative-infinity worst-case sentinel. -/
theorem search_returns_zero_on_no_placements :
    (positions_by_dropping 1000 bFull blkOne).result = .ok [] ∧
    search 10 bFull blkOne [blkOne] 1 = .ok (.score 0) :=
  ⟨rfl, rfl⟩

/-- C2: on the all-empty 33x12 board `board_score` never computes the
enclosed-space penalty: the transposed seed read `visited[c][r]` raises
`IndexError` once the row scan reaches `r = 12` (and no execution could
pass the later `sorted(spaces.sort)` either). -/
theorem board_score_raises_on_empty_board :
    board_score bEmpty 1000 = .error .IndexError :=
  rfl

/-- C3: for every well-formed board and every piece, `check` returns true
precisely when every square of the piece is inside `[0,33) × [0,12)` and
lands on an unoccupied cell.  The embedding of `check` is a pure function
of the board and the block, which is the claim's "no side effects". -/
theorem check_iff_all_squares_free (b : Board) (hW : BoardWF b) (blk : Block) :
    b.check blk = .ok true ↔ ∀ p ∈ blk.squares, cellFree b.bitmap p :=
  check_squares_iff b.bitmap hW.1 hW.2 blk.squares

/-- Witness for C3 at a concrete board and piece. -/
theorem check_iff_all_squares_free_witness :
    BoardWF bEmpty ∧
      (bEmpty.check blkOne = .ok true ↔ ∀ p ∈ blkOne.squares, cellFree bEmpty.bitmap p) :=
  ⟨by decide, check_iff_all_squares_free bEmpty (by decide) blkOne⟩

/-- C6 (counterexample): `place` on a board with an empty preview queue
returns the value `None` (after printing a warning) — it does not fail
fatally or abort. -/
theorem place_empty_preview_returns_none :
    (bNoPrev.place 40).1 = .ok none :=
  rfl

/-- C4: for every well-formed board and command list, `do_commands`
raises `InvalidMoveError` exactly when the reset position is illegal or
some nonempty prefix of the commands before the first `drop` moves the
piece into an illegal position; the outcome only depends on the commands
up to the first `drop` (everything after it is never applied); and on
failure the board's grid is unchanged. -/
theorem do_commands_invalid_iff_illegal_prefix (b : Board) (hW : BoardWF b)
    (cmds : List Cmd) (fuel : Nat) :
    ((b.do_commands cmds fuel).result = .error .InvalidMove ↔ DCFails b cmds) ∧
    ((b.do_commands cmds fuel).result =
      (b.do_commands (cmds.takeWhile (· ≠ Cmd.drop)) fuel).result) ∧
    (∀ e, (b.do_commands cmds fuel).result = .error e →
      (DoOut.selfAfter b (b.do_commands cmds fuel)).bitmap = b.bitmap) := by
  refine ⟨?_, do_commands_result_takeWhile b cmds fuel, fun e _ => rfl⟩
  rw [do_commands_result_takeWhile b cmds fuel]
  have hnd : Cmd.drop ∉ cmds.takeWhile (· ≠ Cmd.drop) := by
    intro hmem
    have := List.mem_takeWhile_imp hmem
    simp at this
  simp only [Board.do_commands]
  obtain ⟨bo, hchk⟩ := check_total b hW b.block.reset_position
  rcases bo
  · rw [hchk]
    exact iff_of_true rfl (Or.inl hchk)
  · rw [hchk]
    show ((cmd_loop b fuel (cmds.takeWhile (· ≠ Cmd.drop) ++ [Cmd.drop])
        b.block.reset_position).1 = .error .InvalidMove) ↔ DCFails b cmds
    rw [cmd_loop_invalid_iff b hW.1 hW.2 fuel _ hnd b.block.reset_position]
    unfold DCFails
    constructor
    · exact fun hex => Or.inr hex
    · rintro (hfalse | hex)
      · have := hchk.symm.trans hfalse
        simp at this
      · exact hex

/-- Witness for C4 at a concrete board and command list. -/
theorem do_commands_invalid_iff_illegal_prefix_witness :
    BoardWF bEmpty ∧
      (((bEmpty.do_commands [Cmd.left] 40).result = .error .InvalidMove ↔
          DCFails bEmpty [Cmd.left]) ∧
       ((bEmpty.do_commands [Cmd.left] 40).result =
          (bEmpty.do_commands ([Cmd.left].takeWhile (· ≠ Cmd.drop)) 40).result) ∧
       (∀ e, (bEmpty.do_commands [Cmd.left] 40).result = .error e →
          (DoOut.selfAfter bEmpty (bEmpty.do_commands [Cmd.left] 40)).bitmap =
            bEmpty.bitmap)) :=
  ⟨by decide, do_commands_invalid_iff_illegal_prefix bEmpty (by decide) [Cmd.left] 40⟩

/-- C10 (amended): whenever the reset position passes the legality check,
`do_commands` appends exactly one `'drop'` to the caller's list in place
(even when the list already contains one), leaving it one element longer;
and the appended element never changes the returned result, because
processing stops at the first `drop` already present. -/
theorem do_commands_appends_drop_when_reset_legal (b : Board) (cmds : List Cmd)
    (fuel : Nat) (hreset : b.check b.block.reset_position = .ok true) :
    (b.do_commands cmds fuel).cmdsAfter = cmds ++ [Cmd.drop] ∧
    (b.do_commands cmds fuel).cmdsAfter.length = cmds.length + 1 ∧
    (b.do_commands cmds fuel).result =
      (b.do_commands (cmds.takeWhile (· ≠ Cmd.drop)) fuel).result := by
  have h1 : (b.do_commands cmds fuel).cmdsAfter = cmds ++ [Cmd.drop] := by
    simp only [Board.do_commands]
    rw [hreset]
  exact ⟨h1, by rw [h1]; simp, do_commands_result_takeWhile b cmds fuel⟩

/-- Witness for C10's amended theorem: a list already containing a `drop`
still gets one more appended, and the caller's list is longer. -/
theorem do_commands_appends_drop_when_reset_legal_witness :
    bEmpty.check bEmpty.block.reset_position = .ok true ∧
      ((bEmpty.do_commands [Cmd.left, Cmd.drop, Cmd.left] 40).cmdsAfter =
          [Cmd.left, Cmd.drop, Cmd.left] ++ [Cmd.drop] ∧
       (bEmpty.do_commands [Cmd.left, Cmd.drop, Cmd.left] 40).cmdsAfter.length =
          [Cmd.left, Cmd.drop, Cmd.left].length + 1 ∧
       (bEmpty.do_commands [Cmd.left, Cmd.drop, Cmd.left] 40).result =
          (bEmpty.do_commands
            ([Cmd.left, Cmd.drop, Cmd.left].takeWhile (· ≠ Cmd.drop)) 40).result) :=
  ⟨by decide,
   do_commands_appends_drop_when_reset_legal bEmpty [Cmd.left, Cmd.drop, Cmd.left]
     40 (by decide)⟩

/-- C5: for every well-formed 33x12 board whose active piece sits in a
legal position, a successful lock transition produces a grid of exactly
33 rows by 12 columns with no entirely-filled row; moreover, writing the
locked piece's squares into the old grid yields a 33-row marked grid, and
the final grid is exactly the non-full rows of that marked grid, in
order, below `33 - kept` freshly inserted all-empty rows — i.e. the rows
removed for being full are replaced by the same number of all-empty rows
at the top. -/
theorem place_preserves_grid_invariants (b : Board) (hW : BoardWF b)
    (_hLegal : b.check b.block = .ok true) (fuel : Nat) (nb : Board)
    (hres : (b.place fuel).1 = .ok (some nb)) :
    nb.bitmap.length = 33 ∧ (∀ row ∈ nb.bitmap, row.length = 12) ∧
    (∀ row ∈ nb.bitmap, ∃ c ∈ row, c = 0) ∧
    ∃ blk1 marked, drop_loop b fuel b.block = .ok blk1 ∧
      mark_squares b.bitmap blk1.up.squares = .ok marked ∧
      marked.length = 33 ∧
      nb.bitmap = List.replicate
          (33 - (marked.filter fun row => !(row.all fun c => c ≠ 0)).length)
          (List.replicate 12 0) ++
        marked.filter fun row => !(row.all fun c => c ≠ 0) := by
  obtain ⟨blk1, marked, hd, hm, hr, _⟩ := place_ok_some_inversion b fuel nb hres
  obtain ⟨hml, hmw⟩ := mark_squares_dims 12 blk1.up.squares b.bitmap marked hW.2 hm
  have hml33 : marked.length = 33 := by rw [hml, hW.1]
  obtain ⟨h1, h2, h3, _⟩ := remove_rows_spec marked hml33 hmw nb.bitmap hr
  exact ⟨h1, h2, h3, blk1, marked, hd, hm, hml33,
    remove_rows_eq marked hml33 hmw nb.bitmap hr⟩

/-- Witness for C5 at a concrete lock transition. -/
theorem place_preserves_grid_invariants_witness :
    BoardWF bEmpty ∧ bEmpty.check bEmpty.block = .ok true ∧
      (bEmpty.place 40).1 = .ok (some nbC6) ∧
      (nbC6.bitmap.length = 33 ∧ (∀ row ∈ nbC6.bitmap, row.length = 12) ∧
       (∀ row ∈ nbC6.bitmap, ∃ c ∈ row, c = 0) ∧
       ∃ blk1 marked, drop_loop bEmpty 40 bEmpty.block = .ok blk1 ∧
         mark_squares bEmpty.bitmap blk1.up.squares = .ok marked ∧
         marked.length = 33 ∧
         nbC6.bitmap = List.replicate
             (33 - (marked.filter fun row => !(row.all fun c => c ≠ 0)).length)
             (List.replicate 12 0) ++
           marked.filter fun row => !(row.all fun c => c ≠ 0)) :=
  ⟨by decide, by decide, rfl,
   place_preserves_grid_invariants bEmpty (by decide) (by decide) 40 nbC6 rfl⟩

/-- C6 (amended): when the preview is non-empty, the board returned by
`place` has the preview's head as its active piece and the tail as its
preview; when `place` returns `None`, the preview was empty — `place`
*returns* in both situations rather than aborting. -/
theorem place_preview_head_tail (b : Board) (fuel : Nat) :
    (∀ nb, (b.place fuel).1 = .ok (some nb) → b.preview = nb.block :: nb.preview) ∧
    ((b.place fuel).1 = .ok none → b.preview = []) := by
  constructor
  · intro nb h
    obtain ⟨_, _, _, _, _, hp⟩ := place_ok_some_inversion b fuel nb h
    exact hp
  · intro h
    exact place_ok_none_inversion b fuel h

/-- Witness for C6's amended theorem at a concrete board: `place` on
`bEmpty` succeeds and the new board's block/preview are `bEmpty`'s
preview head and tail. -/
theorem place_preview_head_tail_witness :
    (bEmpty.place 40).1 = .ok (some nbC6) ∧
      bEmpty.preview = nbC6.block :: nbC6.preview :=
  ⟨rfl, (place_preview_head_tail bEmpty 40).1 nbC6 rfl⟩

/-- C7 (counterexample): for the one-offset piece `blkC7`, rotation
counters 0 and 4 produce different `squares()` sequences — the raw
factor `(1 - rotation)` is 1 at rotation 0 but -3 at rotation 4. -/
theorem squares_rotation_periodicity_fails :
    Block.squares { blkC7 with rotation := 0 } ≠
      Block.squares { blkC7 with rotation := 4 } := by
  decide

/-- C7 (amended): setting a piece's rotation counter to `r` and to `r + 4`
produces identical `squares()` sequences **iff every offset of the piece
is `(0, 0)`**; for any piece with a nonzero offset the 4-fold periodicity
fails, because `squares` multiplies the offsets by the raw factors
`(1 - rotation)` / `(2 - rotation)`. -/
theorem squares_rotation_period_iff_zero_offsets (b : Block) (r : Int) :
    Block.squares { b with rotation := r } =
      Block.squares { b with rotation := r + 4 } ↔
    ∀ o ∈ b.offsets, o = (⟨0, 0⟩ : Point) := by
  have hcases : r % 2 = 0 ∨ r % 2 = 1 := by omega
  rcases hcases with h | h
  · rw [Block.squares, Block.squares]
    rw [if_neg (by simp; omega), if_neg (by simp; omega)]
    rw [map_eq_map_iff_mem]
    constructor
    · intro hf o ho
      have hp := hf o ho
      obtain ⟨oi, oj⟩ := o
      simp only [Point.mk.injEq] at hp ⊢
      have e1 : (1 - r) * oi = (1 - r - 4) * oi := by
        have := hp.1
        simp only at this
        linarith [this]
      have e2 : (1 - r) * oj = (1 - r - 4) * oj := by
        have := hp.2
        simp only at this
        linarith [this]
      exact ⟨(sub_four_mul_eq_iff (1 - r) oi).1 e1,
             (sub_four_mul_eq_iff (1 - r) oj).1 e2⟩
    · intro h0 o ho
      obtain ⟨oi, oj⟩ := o
      have hp := h0 _ ho
      simp only [Point.mk.injEq] at hp
      obtain ⟨rfl, rfl⟩ := hp
      simp
  · rw [Block.squares, Block.squares]
    rw [if_pos (by simp; omega), if_pos (by simp; omega)]
    rw [map_eq_map_iff_mem]
    constructor
    · intro hf o ho
      have hp := hf o ho
      obtain ⟨oi, oj⟩ := o
      simp only [Point.mk.injEq] at hp ⊢
      have e1 : (2 - r) * oj = (2 - r - 4) * oj := by
        have := hp.1
        simp only at this
        linarith [this]
      have e2 : (2 - r) * oi = (2 - r - 4) * oi := by
        have := hp.2
        simp only at this
        linarith [this]
      exact ⟨(sub_four_mul_eq_iff (2 - r) oi).1 e2,
             (sub_four_mul_eq_iff (2 - r) oj).1 e1⟩
    · intro h0 o ho
      obtain ⟨oi, oj⟩ := o
      have hp := h0 _ ho
      simp only [Point.mk.injEq] at hp
      obtain ⟨rfl, rfl⟩ := hp
      simp

/-- C8: `positions_by_dropping` on an empty board mutates the caller's
block in place (it ends translated to `(0, 5)` with rotation counter 48)
and raises `TypeError` in its `block_copy` helper before producing a
single placement; it never operates on a private copy. -/
theorem positions_by_dropping_mutates_caller_block :
    positions_by_dropping 100 bEmpty blkOne =
      ⟨.error .TypeError, ⟨⟨16, 6⟩, [⟨0, 0⟩], ⟨0, 5⟩, 48⟩⟩ ∧
    (⟨⟨16, 6⟩, [⟨0, 0⟩], ⟨0, 5⟩, 48⟩ : Block) ≠ blkOne :=
  ⟨rfl, by decide⟩

/-- C9: the scorer's per-column height loop on a column with no occupied
cell reads the bitmap at row index 33 before testing the bound, raising
`IndexError` instead of returning the row count 33. -/
theorem column_height_raises_on_empty_column :
    column_height emptyBitmap 0 = .error .IndexError :=
  rfl

/-- C10 (counterexample): when the reset position is illegal (here: a
fully occupied board), `do_commands` raises before reaching the append,
so the caller's command list is *not* extended — it is still empty, not
one element longer. -/
theorem do_commands_no_append_on_reset_failure :
    (bFull.do_commands [] 40).cmdsAfter = [] ∧
    ¬ (bFull.do_commands [] 40).cmdsAfter.length = ([] : List Cmd).length + 1 := by
  constructor
  · rfl
  · decide

end Dropblox
